import Mathlib

/-!
Verification of the watchlist CLI tool: a shallow embedding of the
watch-list data core (`lib.rs`), the CLI dispatch layer (`cli.rs`) and the
program entry point (`main.rs`), together with proofs of the specified
properties.

Strings are modelled as lists of Unicode scalar values (`List Char`),
matching Rust `String`/`str` at the level of `char` sequences.  The
collection `HashMap<String, Vec<String>>` is modelled as an association
list; the association-list order stands in for the map's unspecified
iteration order.
-/

set_option autoImplicit false

deriving instance DecidableEq for Except

namespace Watchlist

/-- A Rust string, as its sequence of Unicode scalar values. -/
abbrev Str := List Char

/-- The watch-list collection: `type WatchList = HashMap<String, Vec<String>>`,
modelled as an association list from titles to item sequences. -/
abbrev WatchList := List (Str × List Str)

/-- The error enum `WatchListError` from `lib.rs`.  `IOError` carries the
text of the wrapped `io::Error`. -/
inductive WatchListError where
  | NoTitles
  | EmptyList (title : Str)
  | TitleAlreadyPresent (title : Str)
  | TitleNotPresent (title : Str)
  | ItemAlreadyPresent (item : Str) (title : Str)
  | ItemToRemoveNotPresent (item : Str)
  | IOError (msg : Str)
  deriving DecidableEq, Repr

/-- Model of `HashMap::get` / `get_mut`: look up the value stored under key `t`. -/
def wlookup (w : WatchList) (t : Str) : Option (List Str) :=
  match w with
  | [] => none
  | (k, v) :: rest => if k = t then some v else wlookup rest t

/-- In-place update through `get_mut`: replace the value at the first entry
whose key is `t`, keeping every entry in place. -/
def wupdate (w : WatchList) (t : Str) (l : List Str) : WatchList :=
  match w with
  | [] => []
  | (k, v) :: rest => if k = t then (k, l) :: rest else (k, v) :: wupdate rest t l

/-- Model of `HashMap::remove`: drop the entry whose key is `t`. -/
def wremoveKey (w : WatchList) (t : Str) : WatchList :=
  match w with
  | [] => []
  | (k, v) :: rest => if k = t then rest else (k, v) :: wremoveKey rest t

/-- Model of `HashMap::contains_key`. -/
def containsKey (w : WatchList) (t : Str) : Bool :=
  (wlookup w t).isSome

/-- Model of `.iter().position(|l| l == item)`: index of the first occurrence. -/
def positionOf (l : List Str) (item : Str) : Option Nat :=
  match l with
  | [] => none
  | x :: rest =>
    if x = item then some 0
    else (positionOf rest item).map (· + 1)

/-- Model of `slice::choose(&mut rng)`: `none` on an empty slice, otherwise the
element at a uniformly random index.  The random draw is modelled by the
parameter `k`; as `k` ranges over `Nat`, `k % l.length` ranges over every
valid index. -/
def chooseElem {α : Type} (l : List α) (k : Nat) : Option α :=
  l.get? (k % l.length)

/-- Model of `char::to_ascii_lowercase`: maps `A`–`Z` to `a`–`z`, every other
scalar value unchanged. -/
def charAsciiLower (c : Char) : Char :=
  if 65 ≤ c.toNat ∧ c.toNat ≤ 90 then Char.ofNat (c.toNat + 32) else c

/-- Model of `str::to_ascii_lowercase`. -/
def to_ascii_lowercase (s : Str) : Str :=
  s.map charAsciiLower

/-- Model of `char::to_lowercase` (Unicode simple lowercase mapping), modelled on the
Basic Latin and Latin-1 Supplement blocks, where it maps `A`–`Z` and
`À`–`Þ` (except `×`) down by 32; identity on every other scalar value
(the inputs used in this development stay inside these blocks). -/
def charUnicodeLower (c : Char) : Char :=
  if 65 ≤ c.toNat ∧ c.toNat ≤ 90 then Char.ofNat (c.toNat + 32)
  else if 192 ≤ c.toNat ∧ c.toNat ≤ 222 ∧ c.toNat ≠ 215 then Char.ofNat (c.toNat + 32)
  else c

/-- Model of `str::to_lowercase` (restricted as in `charUnicodeLower`). -/
def to_lowercase (s : Str) : Str :=
  s.map charUnicodeLower

/-- Model of `str::contains(substring)`: `needle` occurs contiguously in the string. -/
def hasSubstring (needle : Str) : Str → Bool
  | [] => needle.isEmpty
  | c :: rest => needle.isPrefixOf (c :: rest) || hasSubstring needle rest

/-- Function `item_add` from `lib.rs`: append `item` to list `title`; with
`add_duplicate` unset, refuse an exact duplicate.  Returns the collection
after the call together with the `Result`. -/
def item_add (w : WatchList) (title item : Str) (add_duplicate : Bool) :
    WatchList × Except WatchListError Unit :=
  match wlookup w title with
  | none => (w, .error (.TitleNotPresent title))
  | some list_items =>
    if add_duplicate then
      (wupdate w title (list_items ++ [item]), .ok ())
    else
      match positionOf list_items item with
      | some _ => (w, .error (.ItemAlreadyPresent item title))
      | none => (wupdate w title (list_items ++ [item]), .ok ())

/-- Function `item_remove` from `lib.rs`: delete the first occurrence of `item`. -/
def item_remove (w : WatchList) (title item : Str) :
    WatchList × Except WatchListError Unit :=
  match wlookup w title with
  | none => (w, .error (.TitleNotPresent title))
  | some list_items =>
    match positionOf list_items item with
    | none => (w, .error (.ItemToRemoveNotPresent item))
    | some index => (wupdate w title (list_items.eraseIdx index), .ok ())

/-- Function `item_get_all` from `lib.rs`. -/
def item_get_all (w : WatchList) (title : Str) : Except WatchListError (List Str) :=
  match wlookup w title with
  | none => .error (.TitleNotPresent title)
  | some items =>
    if items.isEmpty then .error (.EmptyList title) else .ok items

/-- Function `item_get_random` from `lib.rs`; the random draw is the parameter `k`. -/
def item_get_random (w : WatchList) (title : Str) (k : Nat) :
    Except WatchListError Str :=
  match wlookup w title with
  | none => .error (.TitleNotPresent title)
  | some items =>
    match chooseElem items k with
    | none => .error (.EmptyList title)
    | some x => .ok x

/-- Function `list_add` from `lib.rs`: create an empty list under a fresh title. -/
def list_add (w : WatchList) (title : Str) :
    WatchList × Except WatchListError Unit :=
  if containsKey w title then (w, .error (.TitleAlreadyPresent title))
  else (w ++ [(title, [])], .ok ())

/-- Function `list_remove` from `lib.rs`. -/
def list_remove (w : WatchList) (title : Str) :
    WatchList × Except WatchListError Unit :=
  if containsKey w title then (wremoveKey w title, .ok ())
  else (w, .error (.TitleNotPresent title))

/-- Function `list_get_all` from `lib.rs`: all titles, `NoTitles` when there are none. -/
def list_get_all (w : WatchList) : Except WatchListError (List Str) :=
  let list_titles := w.map Prod.fst
  if list_titles.isEmpty then .error .NoTitles else .ok list_titles

/-- Function `list_get_random` from `lib.rs`; the random draw is the parameter `k`. -/
def list_get_random (w : WatchList) (k : Nat) : Except WatchListError Str :=
  match list_get_all w with
  | .error e => .error e
  | .ok lists =>
    match chooseElem lists k with
    | none => .error .NoTitles
    | some t => .ok t

/-- Function `list_search` from `lib.rs`: keep the items whose ASCII-lowercased text
contains the Unicode-lowercased search string. -/
def list_search (w : WatchList) (title search : Str) :
    Except WatchListError (List Str) :=
  match wlookup w title with
  | none => .error (.TitleNotPresent title)
  | some items =>
    .ok (items.filter (fun i => hasSubstring (to_lowercase search) (to_ascii_lowercase i)))

/-! ## Persistence codec (`from_file` / `to_file` in `lib.rs`, via `serde_json`)

The codec is modelled at the level of the JSON document: `to_file`
serializes the collection as a JSON object whose keys are the titles and
whose values are arrays of strings; `from_file` parses such an object back.
-/

/-- A JSON document, as produced and consumed by the storage codec. -/
inductive Json where
  | null
  | bool (b : Bool)
  | num (n : Int)
  | str (s : Str)
  | arr (elems : List Json)
  | obj (fields : List (Str × Json))

/-- Encoder `to_file`: the JSON document written for a collection — one object,
one key per list, each value the array of that list's items in order. -/
def encodeWatchList (w : WatchList) : Json :=
  .obj (w.map (fun p => (p.1, .arr (p.2.map .str))))

/-- Decoding of one JSON value as a `Vec<String>`. -/
def decodeItems : List Json → Option (List Str)
  | [] => some []
  | .str s :: rest => (decodeItems rest).map (s :: ·)
  | _ => none

/-- Decoding of the fields of the top-level JSON object. -/
def decodeFields : List (Str × Json) → Option WatchList
  | [] => some []
  | (t, .arr elems) :: rest =>
    match decodeItems elems with
    | none => none
    | some items => (decodeFields rest).map ((t, items) :: ·)
  | _ => none

/-- Decoder `from_file`: parse a JSON document as a collection; anything other
than an object of arrays of strings is a decode failure. -/
def decodeWatchList : Json → Option WatchList
  | .obj fields => decodeFields fields
  | _ => none

/-! ## CLI layer (`cli.rs`) -/

/-- The `random` subcommand with the list name omitted (`cli_run`,
`Commands::Random` branch): draw a random title, retry while the drawn
list is empty, then draw a random item from it.  The random source is the
stream `stream` (one `Nat` per draw); `fuel` bounds the number of loop
iterations, with `none` meaning the loop did not finish within `fuel`
iterations. -/
def cli_random_loop (w : WatchList) (stream : Nat → Nat) :
    Nat → Option (Except WatchListError Str)
  | 0 => none
  | fuel + 1 =>
    match list_get_random w (stream 0) with
    | .error e => some (.error e)
    | .ok list =>
      if ((wlookup w list).getD []).isEmpty then
        cli_random_loop w (fun n => stream (n + 2)) fuel
      else
        some (item_get_random w list (stream 1))

/-- The `random` subcommand with the name omitted can terminate: some
random stream and some iteration bound produce a result. -/
def cliRandomTerminates (w : WatchList) : Prop :=
  ∃ stream fuel r, cli_random_loop w stream fuel = some r

/-- Message printed by `cli_delete` after deleting a whole list. -/
def deletedListMsg (name : Str) : Str :=
  "Deleted List '".toList ++ name ++ "'".toList

/-- Function `cli_delete` with `prompt` omitted: confirmation flow.  `response` is
the trimmed line returned by `input(..., true)`.  Result: the collection
after the call, the `Result`, and the lines printed. -/
def cli_delete_confirm (w : WatchList) (name response : Str) :
    WatchList × Except WatchListError Unit × List Str :=
  if to_lowercase response = "y".toList then
    match list_remove w name with
    | (w2, .ok _) => (w2, .ok (), [deletedListMsg name])
    | (w2, .error e) => (w2, .error e, [])
  else
    (w, .ok (), ["Deleting Cancelled".toList])

/-! ## Entry point (`main.rs`) -/

/-- Outcome of `WatchList::from_file` at startup, as `main` distinguishes
the cases: success, `NotFound`, `IsADirectory` (raw OS error 21), or any
other I/O or parse failure. -/
inductive LoadResult where
  | ok (w : WatchList)
  | notFound
  | isDirectory
  | otherError
  deriving DecidableEq

/-- Observable outcome of one run of `main`: lines printed to standard
output, lines printed to standard error, the collection passed to
`to_file` (`none` when no write is attempted), and the process exit
code. -/
structure MainOutcome where
  outLines : List Str
  errLines : List Str
  saved : Option WatchList
  exitCode : Nat
  deriving DecidableEq

/-- The message `main` prints on standard error for each domain error. -/
def errorMessage : WatchListError → Str
  | .NoTitles =>
    "No Lists Found!\nCreate a new one using the `new` subcommand. See `wl --help` for more info".toList
  | .EmptyList t => "No Items Added to List - ".toList ++ t ++ "!".toList
  | .TitleNotPresent t => "No such list - ".toList ++ t ++ "!".toList
  | .ItemAlreadyPresent i t =>
    i ++ " is already in the list - ".toList ++ t ++ "!".toList
  | .ItemToRemoveNotPresent i => i ++ " not in the list!".toList
  | .TitleAlreadyPresent t => "A list called ".toList ++ t ++ " already exists".toList
  | .IOError e => e

/-- The fixed diagnostic `main` prints when the storage path is a directory. -/
def isDirectoryMsg : Str :=
  "Error! Couldnt Find File!\nCheck if the environment variable is set to a file and not a directory".toList

/-- The tail of `main` after loading succeeded: run the CLI dispatch,
print the message for a domain error if any, write the collection back
unconditionally, and exit 0 unless that write fails.  `dispatch` is the
behaviour of `cli_run` on the loaded collection (returning the mutated
collection and its `Result`); `saveFails` tells whether `to_file` fails. -/
def runDispatchPhase (w : WatchList)
    (dispatch : WatchList → WatchList × Except WatchListError Unit)
    (saveFails : Bool) : MainOutcome :=
  let r := dispatch w
  ⟨[],
   match r.2 with
   | .ok _ => []
   | .error e => [errorMessage e],
   some r.1,
   if saveFails then 1 else 0⟩

/-- Function `main` from `main.rs`: load (tolerating a missing file, short-circuiting
on a directory path, aborting on any other load failure), dispatch, report,
save, exit. -/
def runMain (load : LoadResult)
    (dispatch : WatchList → WatchList × Except WatchListError Unit)
    (saveFails : Bool) : MainOutcome :=
  match load with
  | .otherError => ⟨[], [], none, 1⟩
  | .isDirectory => ⟨[isDirectoryMsg], [], none, 0⟩
  | .notFound => runDispatchPhase [] dispatch saveFails
  | .ok w => runDispatchPhase w dispatch saveFails

/-! ## Specification-side definitions (for refinement claims) -/

/-- Case-insensitive match as the specification words it: normalize both
the search term and the candidate item to lowercase before testing
containment. -/
def specCaseInsensitiveMatch (item search : Str) : Bool :=
  hasSubstring (to_lowercase search) (to_lowercase item)

/-- The search result the specification describes: all items of the list
whose text contains the search substring case-insensitively, in original
list order. -/
def specSearchMatches (items : List Str) (search : Str) : List Str :=
  items.filter (fun i => specCaseInsensitiveMatch i search)

/-- String `s` consists of ASCII scalar values only. -/
def allAscii (s : Str) : Bool :=
  s.all (fun c => c.toNat < 128)

/-! ## Helper lemmas -/

theorem chooseElem_mem {α : Type} {l : List α} {k : Nat} {x : α}
    (h : chooseElem l k = some x) : x ∈ l :=
  List.get?_mem h

theorem chooseElem_of_ne_nil {α : Type} (l : List α) (k : Nat) (h : l ≠ []) :
    ∃ x, chooseElem l k = some x := by
  have hlen : 0 < l.length := List.length_pos.2 h
  have hk : k % l.length < l.length := Nat.mod_lt _ hlen
  exact ⟨l.get ⟨k % l.length, hk⟩, List.get?_eq_get hk⟩

theorem wlookup_mem {w : WatchList} {t : Str} {l : List Str}
    (h : wlookup w t = some l) : (t, l) ∈ w := by
  induction w with
  | nil => simp [wlookup] at h
  | cons p rest ih =>
    obtain ⟨k, v⟩ := p
    by_cases hk : k = t
    · subst hk
      simp [wlookup] at h
      simp [h]
    · simp [wlookup, hk] at h
      exact List.mem_cons_of_mem _ (ih h)

theorem wlookup_eq_none_iff {w : WatchList} {t : Str} :
    wlookup w t = none ↔ t ∉ w.map Prod.fst := by
  induction w with
  | nil => simp [wlookup]
  | cons p rest ih =>
    obtain ⟨k, v⟩ := p
    by_cases hk : k = t
    · subst hk
      simp [wlookup]
    · simp [wlookup, hk, ih, Ne.symm hk]

theorem wlookup_wupdate {w : WatchList} {t : Str} {l : List Str}
    (h : wlookup w t = some l) (l2 : List Str) :
    wlookup (wupdate w t l2) t = some l2 := by
  induction w with
  | nil => simp [wlookup] at h
  | cons p rest ih =>
    obtain ⟨k, v⟩ := p
    by_cases hk : k = t
    · subst hk
      simp [wupdate, wlookup]
    · simp [wlookup, hk] at h
      simp [wupdate, hk, wlookup, ih h]

theorem mem_wlookup_of_nodup {w : WatchList} {t : Str} {l : List Str}
    (hmem : (t, l) ∈ w) (hnd : (w.map Prod.fst).Nodup) :
    wlookup w t = some l := by
  induction w with
  | nil => simp at hmem
  | cons p rest ih =>
    obtain ⟨k, v⟩ := p
    rw [List.map_cons, List.nodup_cons] at hnd
    rcases List.mem_cons.mp hmem with heq | hmem2
    · have ht : t = k := congrArg Prod.fst heq
      have hv : l = v := congrArg Prod.snd heq
      simp [wlookup, ht.symm, hv]
    · have hk : k ≠ t := by
        intro hkt
        subst hkt
        exact hnd.1 (List.mem_map.2 ⟨(k, l), hmem2, rfl⟩)
      simp [wlookup, hk, ih hmem2 hnd.2]

theorem positionOf_eq_none_iff {l : List Str} {i : Str} :
    positionOf l i = none ↔ i ∉ l := by
  induction l with
  | nil => simp [positionOf]
  | cons x rest ih =>
    by_cases hx : x = i
    · subst hx
      simp [positionOf]
    · have hxi : i ≠ x := fun h => hx h.symm
      simp [positionOf, hx, Option.map_eq_none', ih, hxi]

theorem positionOf_append_cons {p s : List Str} {i : Str} (hp : i ∉ p) :
    positionOf (p ++ i :: s) i = some p.length := by
  induction p with
  | nil => simp [positionOf]
  | cons x rest ih =>
    have hx : x ≠ i := fun h => hp (h ▸ List.mem_cons_self x rest)
    have hrest : i ∉ rest := fun h => hp (List.mem_cons_of_mem _ h)
    simp [positionOf, hx, ih hrest]

theorem eraseIdx_append_cons {α : Type} (p s : List α) (i : α) :
    (p ++ i :: s).eraseIdx p.length = p ++ s := by
  induction p with
  | nil => simp [List.eraseIdx]
  | cons x rest ih => simp [List.eraseIdx, ih]

theorem hasSubstring_nil (hay : Str) : hasSubstring [] hay = true := by
  cases hay with
  | nil => simp [hasSubstring, List.isEmpty]
  | cons c rest => simp [hasSubstring, List.isPrefixOf]

theorem charUnicodeLower_eq_of_ascii {c : Char} (h : c.toNat < 128) :
    charUnicodeLower c = charAsciiLower c := by
  unfold charUnicodeLower charAsciiLower
  by_cases h1 : 65 ≤ c.toNat ∧ c.toNat ≤ 90
  · simp [h1]
  · have h2 : ¬(192 ≤ c.toNat ∧ c.toNat ≤ 222 ∧ c.toNat ≠ 215) := by omega
    simp [h1, h2]

theorem to_lowercase_eq_ascii {s : Str} (h : allAscii s = true) :
    to_lowercase s = to_ascii_lowercase s := by
  unfold to_lowercase to_ascii_lowercase
  apply List.map_congr_left
  intro c hc
  have := (List.all_eq_true.mp h) c hc
  exact charUnicodeLower_eq_of_ascii (by simpa using this)

/-! ## Claims -/

theorem decodeItems_map_str (l : List Str) :
    decodeItems (l.map Json.str) = some l := by
  induction l with
  | nil => rfl
  | cons x rest ih => simp [decodeItems, ih]

theorem decodeFields_encode (w : WatchList) :
    decodeFields (w.map (fun p => (p.1, Json.arr (p.2.map Json.str)))) = some w := by
  induction w with
  | nil => rfl
  | cons p rest ih => simp [decodeFields, decodeItems_map_str, ih]

/-- Claim C5: encoding any collection with the persistence codec and
decoding the result yields an identical collection — the same titles with
the same item sequences in the same order. -/
theorem encode_decode_roundTrip (w : WatchList) :
    decodeWatchList (encodeWatchList w) = some w := by
  simp [decodeWatchList, encodeWatchList, decodeFields_encode]

theorem filter_hasSubstring_nil (l : List Str) :
    l.filter (fun i => hasSubstring [] (to_ascii_lowercase i)) = l := by
  induction l with
  | nil => rfl
  | cons x rest ih => simp [List.filter, hasSubstring_nil, ih]

/-- Claim C10: searching a present list with the empty string succeeds and
returns the entire item sequence in original order; in particular
searching an empty list is not an error. -/
theorem list_search_empty_string {w : WatchList} {t : Str} {l : List Str}
    (h : wlookup w t = some l) : list_search w t [] = .ok l := by
  simp [list_search, h, to_lowercase, filter_hasSubstring_nil]

/-- Witness for C10 at a concrete collection, including an empty list. -/
theorem list_search_empty_string_witness :
    list_search [("Movies".toList, ["A".toList]), ("Empty".toList, [])]
      "Empty".toList [] = .ok [] :=
  list_search_empty_string (by decide)

/-- Claim C8: a successful random item draw (for every possible random
value) is a member of the named list; the draw fails with
`TitleNotPresent` when the title is absent and with `EmptyList` when the
list exists with zero items. -/
theorem item_get_random_spec (w : WatchList) (t : Str) (k : Nat) :
    (∀ x, item_get_random w t k = .ok x → ∃ l, wlookup w t = some l ∧ x ∈ l) ∧
    (wlookup w t = none → item_get_random w t k = .error (.TitleNotPresent t)) ∧
    (wlookup w t = some [] → item_get_random w t k = .error (.EmptyList t)) := by
  refine ⟨?_, ?_, ?_⟩
  · intro x hx
    cases hl : wlookup w t with
    | none => simp [item_get_random, hl] at hx
    | some l =>
      cases hc : chooseElem l k with
      | none => simp [item_get_random, hl, hc] at hx
      | some y =>
        simp [item_get_random, hl, hc] at hx
        exact ⟨l, rfl, hx ▸ chooseElem_mem hc⟩
  · intro hl
    simp [item_get_random, hl]
  · intro hl
    simp [item_get_random, hl, chooseElem]

/-- Witness for C8: a concrete successful draw lands in the list. -/
theorem item_get_random_spec_witness :
    ∃ l, wlookup [("T".toList, ["a".toList])] "T".toList = some l ∧
      "a".toList ∈ l :=
  (item_get_random_spec [("T".toList, ["a".toList])] "T".toList 0).1
    "a".toList (by decide)

/-- Claim C9: every mutating data-core operation is atomic — whenever it
returns an error, the collection it returns is exactly the collection it
was given.  (The query operations `item_get_all`, `item_get_random`,
`list_get_all`, `list_get_random` and `list_search` borrow the collection
immutably in the source and are embedded as functions that return no
collection at all, so they cannot mutate by construction.) -/
theorem mutating_ops_atomic (w : WatchList) (t i : Str) (dup : Bool) :
    (∀ e, (item_add w t i dup).2 = .error e → (item_add w t i dup).1 = w) ∧
    (∀ e, (item_remove w t i).2 = .error e → (item_remove w t i).1 = w) ∧
    (∀ e, (list_add w t).2 = .error e → (list_add w t).1 = w) ∧
    (∀ e, (list_remove w t).2 = .error e → (list_remove w t).1 = w) := by
  refine ⟨?_, ?_, ?_, ?_⟩
  · intro e he
    cases hl : wlookup w t with
    | none => simp [item_add, hl]
    | some l =>
      cases dup with
      | true => simp [item_add, hl] at he
      | false =>
        cases hp : positionOf l i with
        | none => simp [item_add, hl, hp] at he
        | some n => simp [item_add, hl, hp]
  · intro e he
    cases hl : wlookup w t with
    | none => simp [item_remove, hl]
    | some l =>
      cases hp : positionOf l i with
      | none => simp [item_remove, hl, hp]
      | some n => simp [item_remove, hl, hp] at he
  · intro e he
    cases hc : containsKey w t with
    | true => simp [list_add, hc]
    | false => simp [list_add, hc] at he
  · intro e he
    cases hc : containsKey w t with
    | true => simp [list_remove, hc] at he
    | false => simp [list_remove, hc]

/-- Witness for C9: a concrete failing call returns the collection
unchanged. -/
theorem mutating_ops_atomic_witness :
    (item_add [] "T".toList "x".toList false).1 = [] :=
  (mutating_ops_atomic [] "T".toList "x".toList false).1
    (.TitleNotPresent "T".toList) (by decide)

/-- Claim C3: with the duplicate flag unset, adding to an existing list
fails with `ItemAlreadyPresent` exactly when the exact item text is
already in the list, leaving the collection unchanged; adding the same
item twice fails the second time and leaves exactly one occurrence. -/
theorem item_add_duplicate_spec (w : WatchList) (t i : Str) (l : List Str)
    (h : wlookup w t = some l) :
    (item_add w t i false = (w, .error (.ItemAlreadyPresent i t)) ↔ i ∈ l) ∧
    (i ∉ l →
      item_add w t i false = (wupdate w t (l ++ [i]), .ok ()) ∧
      item_add (wupdate w t (l ++ [i])) t i false
        = (wupdate w t (l ++ [i]), .error (.ItemAlreadyPresent i t)) ∧
      wlookup (wupdate w t (l ++ [i])) t = some (l ++ [i]) ∧
      (l ++ [i]).count i = 1) := by
  constructor
  · constructor
    · intro he
      by_contra hmem
      have hp : positionOf l i = none := positionOf_eq_none_iff.2 hmem
      simp [item_add, h, hp] at he
    · intro hmem
      have hp : positionOf l i ≠ none :=
        fun hn => (positionOf_eq_none_iff.mp hn) hmem
      cases hp2 : positionOf l i with
      | none => exact absurd hp2 hp
      | some n => simp [item_add, h, hp2]
  · intro hmem
    have hp : positionOf l i = none := positionOf_eq_none_iff.2 hmem
    have hup : wlookup (wupdate w t (l ++ [i])) t = some (l ++ [i]) :=
      wlookup_wupdate h (l ++ [i])
    have hmem2 : i ∈ l ++ [i] := by simp
    have hp2 : positionOf (l ++ [i]) i ≠ none :=
      fun hn => (positionOf_eq_none_iff.mp hn) hmem2
    refine ⟨by simp [item_add, h, hp], ?_, hup, ?_⟩
    · cases hp3 : positionOf (l ++ [i]) i with
      | none => exact absurd hp3 hp2
      | some n => simp [item_add, hup, hp3]
    · have hcount : l.count i = 0 := List.count_eq_zero.2 hmem
      simp [List.count_append, hcount]

/-- Witness for C3: a concrete double add without the flag. -/
theorem item_add_duplicate_spec_witness :
    item_add [("T".toList, [])] "T".toList "x".toList false
      = (wupdate [("T".toList, [])] "T".toList ["x".toList], .ok ()) :=
  (((item_add_duplicate_spec [("T".toList, [])] "T".toList "x".toList []
    (by decide)).2) (by decide)).1

/-- Claim C4: removing an item from an existing list deletes exactly the
first (lowest-index) occurrence, keeping every other item in its original
relative order, and fails with `ItemToRemoveNotPresent` exactly when no
item of the list equals the given text. -/
theorem item_remove_first_occurrence (w : WatchList) (t i : Str) (l : List Str)
    (h : wlookup w t = some l) :
    (∀ p s, l = p ++ i :: s → i ∉ p →
      item_remove w t i = (wupdate w t (p ++ s), .ok ())) ∧
    (item_remove w t i = (w, .error (.ItemToRemoveNotPresent i)) ↔ i ∉ l) := by
  constructor
  · intro p s hdec hp
    subst hdec
    have hpos : positionOf (p ++ i :: s) i = some p.length :=
      positionOf_append_cons hp
    simp [item_remove, h, hpos, eraseIdx_append_cons]
  · constructor
    · intro he hmem
      have hp : positionOf l i ≠ none :=
        fun hn => (positionOf_eq_none_iff.mp hn) hmem
      cases hp2 : positionOf l i with
      | none => exact absurd hp2 hp
      | some n => simp [item_remove, h, hp2] at he
    · intro hmem
      have hp : positionOf l i = none := positionOf_eq_none_iff.2 hmem
      simp [item_remove, h, hp]

/-- Witness for C4: removing the first of two equal-text occurrences. -/
theorem item_remove_first_occurrence_witness :
    item_remove [("T".toList, ["a".toList, "b".toList, "a".toList])]
      "T".toList "a".toList
      = (wupdate [("T".toList, ["a".toList, "b".toList, "a".toList])]
          "T".toList ["b".toList, "a".toList], .ok ()) :=
  (item_remove_first_occurrence
      [("T".toList, ["a".toList, "b".toList, "a".toList])]
      "T".toList "a".toList ["a".toList, "b".toList, "a".toList]
      (by decide)).1 [] ["b".toList, "a".toList] (by decide) (by decide)

/-- Claim C7: the delete subcommand without a prompt argument removes the
named (existing) list exactly when the lower-cased response is `"y"`; any
other response leaves the collection unchanged and prints
"Deleting Cancelled". -/
theorem cli_delete_confirm_spec (w : WatchList) (name response : Str)
    (l : List Str) (h : wlookup w name = some l) :
    (to_lowercase response = "y".toList →
      cli_delete_confirm w name response
        = (wremoveKey w name, .ok (), [deletedListMsg name])) ∧
    (to_lowercase response ≠ "y".toList →
      cli_delete_confirm w name response
        = (w, .ok (), ["Deleting Cancelled".toList])) := by
  have hc : containsKey w name = true := by simp [containsKey, h]
  constructor
  · intro hy
    unfold cli_delete_confirm
    rw [if_pos hy]
    have hr : list_remove w name = (wremoveKey w name, .ok ()) := by
      simp [list_remove, hc]
    rw [hr]
  · intro hn
    unfold cli_delete_confirm
    rw [if_neg hn]

/-- Witness for C7: answering "Y" deletes the list, answering "" cancels. -/
theorem cli_delete_confirm_spec_witness :
    cli_delete_confirm [("T".toList, [])] "T".toList "Y".toList
      = (wremoveKey [("T".toList, [])] "T".toList, .ok (),
          [deletedListMsg "T".toList]) :=
  (cli_delete_confirm_spec [("T".toList, [])] "T".toList "Y".toList []
    (by decide)).1 (by decide)

/-- Claim C6: when the CLI dispatch returns a domain error, `main` prints
that error's message on standard error, still writes the in-memory
collection back, and exits with code 0; a non-zero exit happens only for
a fatal load failure or a save failure. -/
theorem main_domain_error_behaviour (w : WatchList)
    (dispatch : WatchList → WatchList × Except WatchListError Unit)
    (e : WatchListError) (h : (dispatch w).2 = .error e) :
    runMain (.ok w) dispatch false
      = ⟨[], [errorMessage e], some (dispatch w).1, 0⟩ ∧
    (∀ load disp sf, (runMain load disp sf).exitCode ≠ 0 →
      load = .otherError ∨ sf = true) := by
  constructor
  · simp [runMain, runDispatchPhase, h]
  · intro load disp sf hne
    cases load with
    | otherError => exact Or.inl rfl
    | isDirectory => simp [runMain] at hne
    | notFound =>
      cases sf with
      | true => exact Or.inr rfl
      | false => simp [runMain, runDispatchPhase] at hne
    | ok w2 =>
      cases sf with
      | true => exact Or.inr rfl
      | false => simp [runMain, runDispatchPhase] at hne

/-- Witness for C6: a concrete failing dispatch still saves and exits 0. -/
theorem main_domain_error_behaviour_witness :
    runMain (.ok []) (fun w2 => (w2, .error .NoTitles)) false
      = ⟨[], [errorMessage .NoTitles], some [], 0⟩ :=
  (main_domain_error_behaviour [] (fun w2 => (w2, .error .NoTitles))
    .NoTitles rfl).1

/-- Counterexample to C1 as stated: the code ASCII-lowercases the item but
Unicode-lowercases the search string, so its one-character matching is not
symmetric: the list `["Ü"]` searched for `"ü"` yields nothing, while the
list `["ü"]` searched for `"Ü"` yields the item.  Any comparison that
normalizes both sides to a single case answers these two queries alike
(the spec-worded matcher returns the item in both), so no case-insensitive
comparison describes `list_search`. -/
theorem list_search_case_insensitive_counterexample :
    list_search [("T".toList, ["Ü".toList])] "T".toList "ü".toList = .ok []
    ∧ list_search [("T".toList, ["ü".toList])] "T".toList "Ü".toList
        = .ok ["ü".toList]
    ∧ specSearchMatches ["Ü".toList] "ü".toList = ["Ü".toList]
    ∧ specSearchMatches ["ü".toList] "Ü".toList = ["ü".toList] := by
  decide

/-- Claim C1 (amended): for a present title, Search succeeds and returns
exactly those items whose ASCII-lowercased text contains the
Unicode-lowercased search string, in original list order (an empty result
rather than an error when nothing matches), and it fails with
`TitleNotPresent` exactly when the title is absent; when the search string
and all items of the list are ASCII, this coincides with the
specification's case-insensitive matching. -/
theorem list_search_spec (w : WatchList) (t s : Str) :
    (∀ l, wlookup w t = some l →
      list_search w t s = .ok (l.filter
        (fun i => hasSubstring (to_lowercase s) (to_ascii_lowercase i)))) ∧
    (wlookup w t = none ↔ list_search w t s = .error (.TitleNotPresent t)) ∧
    (∀ l, wlookup w t = some l → allAscii s = true →
      (∀ i ∈ l, allAscii i = true) →
      list_search w t s = .ok (specSearchMatches l s)) := by
  refine ⟨?_, ?_, ?_⟩
  · intro l hl
    simp [list_search, hl]
  · constructor
    · intro hl
      simp [list_search, hl]
    · intro he
      cases hl : wlookup w t with
      | none => rfl
      | some l => simp [list_search, hl] at he
  · intro l hl hs hi
    simp [list_search, hl, specSearchMatches, specCaseInsensitiveMatch]
    apply List.filter_congr
    intro x hx
    rw [to_lowercase_eq_ascii (hi x hx)]

/-- Witness for C1: an ASCII search agrees with the spec-worded matcher
on a concrete list. -/
theorem list_search_spec_witness :
    list_search
      [("T".toList, ["Movie 1".toList, "Movie 2".toList, "Another".toList])]
      "T".toList "movie".toList
      = .ok (specSearchMatches
          ["Movie 1".toList, "Movie 2".toList, "Another".toList]
          "movie".toList) :=
  (list_search_spec
    [("T".toList, ["Movie 1".toList, "Movie 2".toList, "Another".toList])]
    "T".toList "movie".toList).2.2
    ["Movie 1".toList, "Movie 2".toList, "Another".toList]
    (by decide) (by decide) (by decide)

theorem list_get_random_error {w : WatchList} {k : Nat} {e : WatchListError}
    (h : list_get_random w k = .error e) : e = .NoTitles ∧ w = [] := by
  cases w with
  | nil => simp [list_get_random, list_get_all, chooseElem] at h ⊢; exact h.symm
  | cons p rest =>
    obtain ⟨x, hx⟩ :=
      chooseElem_of_ne_nil ((p :: rest).map Prod.fst) k (by simp)
    simp only [List.map_cons] at hx
    simp [list_get_random, list_get_all, hx] at h

theorem list_get_random_ok {w : WatchList} {k : Nat} {t : Str}
    (h : list_get_random w k = .ok t) : ∃ l, wlookup w t = some l := by
  cases hl : wlookup w t with
  | some l => exact ⟨l, rfl⟩
  | none =>
    exfalso
    have ht : t ∈ w.map Prod.fst := by
      cases w with
      | nil => simp [list_get_random, list_get_all, chooseElem] at h
      | cons p rest =>
        cases hc : chooseElem ((p :: rest).map Prod.fst) k with
        | none =>
          simp only [List.map_cons] at hc
          simp [list_get_random, list_get_all, hc] at h
        | some y =>
          have hy : y ∈ (p :: rest).map Prod.fst := chooseElem_mem hc
          simp only [List.map_cons] at hc
          simp [list_get_random, list_get_all, hc] at h
          exact h ▸ hy
    exact (wlookup_eq_none_iff.mp hl) ht

theorem cli_random_loop_result (w : WatchList) :
    ∀ (fuel : Nat) (stream : Nat → Nat) (r : Except WatchListError Str),
      cli_random_loop w stream fuel = some r →
      (r = .error .NoTitles ∧ w = []) ∨
      (∃ t l x, wlookup w t = some l ∧ l ≠ [] ∧ x ∈ l ∧ r = .ok x) := by
  intro fuel
  induction fuel with
  | zero =>
    intro stream r h
    simp [cli_random_loop] at h
  | succ n ih =>
    intro stream r h
    rw [cli_random_loop] at h
    cases hg : list_get_random w (stream 0) with
    | error e =>
      rw [hg] at h
      simp at h
      obtain ⟨he, hw⟩ := list_get_random_error hg
      exact Or.inl ⟨by rw [← h, he], hw⟩
    | ok t =>
      rw [hg] at h
      obtain ⟨l, hl⟩ := list_get_random_ok hg
      have h2 : (if l.isEmpty = true then
          cli_random_loop w (fun n => stream (n + 2)) n
          else some (item_get_random w t (stream 1))) = some r := by
        rw [← h]
        show _ = (if ((wlookup w t).getD []).isEmpty = true then _ else _)
        rw [hl]
        rfl
      cases hemp : l.isEmpty with
      | true =>
        rw [hemp, if_pos rfl] at h2
        exact ih _ _ h2
      | false =>
        rw [hemp, if_neg (by simp)] at h2
        have hne : l ≠ [] := by
          intro hn
          rw [hn] at hemp
          simp [List.isEmpty] at hemp
        obtain ⟨x, hx⟩ := chooseElem_of_ne_nil l (stream 1) hne
        have hig : item_get_random w t (stream 1) = .ok x := by
          simp [item_get_random, hl, hx]
        rw [hig] at h2
        exact Or.inr ⟨t, l, x, hl, hne, chooseElem_mem hx, (Option.some.inj h2).symm⟩

theorem cli_random_loop_all_empty (fuel : Nat) :
    ∀ stream : Nat → Nat,
      cli_random_loop [("A".toList, [])] stream fuel = none := by
  induction fuel with
  | zero => intro stream; rfl
  | succ n ih =>
    intro stream
    rw [cli_random_loop]
    have hg : list_get_random [("A".toList, [])] (stream 0) = .ok "A".toList := by
      simp [list_get_random, list_get_all, chooseElem, Nat.mod_one]
    rw [hg]
    exact ih _

/-- Counterexample to C2 as stated: on the collection with the single
empty list `"A"`, the random subcommand with the name omitted never
terminates — no random stream and no number of iterations produce any
result, neither an item nor an error. -/
theorem cli_random_terminates_counterexample :
    ¬ cliRandomTerminates [("A".toList, [])] := by
  rintro ⟨stream, fuel, r, h⟩
  rw [cli_random_loop_all_empty fuel stream] at h
  exact Option.noConfusion h

/-- Claim C2 (amended): the random subcommand with the name omitted fails
with `NoTitles` (immediately) when the collection has zero lists; every
terminating run otherwise returns an item belonging to some non-empty
list (selection of empty lists only causes retries, never failure), and
when some list is non-empty a terminating run exists — but when every
list is empty (and at least one list exists) the loop never terminates,
so termination does not hold for every collection. -/
theorem cli_random_none_spec (w : WatchList) :
    (∀ (stream : Nat → Nat) (fuel : Nat), w = [] →
      cli_random_loop w stream (fuel + 1) = some (.error .NoTitles)) ∧
    (∀ (stream : Nat → Nat) (fuel : Nat) (x : Str),
      cli_random_loop w stream fuel = some (.ok x) →
      ∃ t l, wlookup w t = some l ∧ l ≠ [] ∧ x ∈ l) ∧
    (∀ (stream : Nat → Nat) (fuel : Nat) (e : WatchListError),
      cli_random_loop w stream fuel = some (.error e) →
      e = .NoTitles ∧ w = []) ∧
    ((∃ p, p ∈ w ∧ p.2 ≠ []) → (w.map Prod.fst).Nodup →
      ∃ (stream : Nat → Nat) (x : Str),
        cli_random_loop w stream 1 = some (.ok x) ∧
        ∃ t l, wlookup w t = some l ∧ l ≠ [] ∧ x ∈ l) := by
  refine ⟨?_, ?_, ?_, ?_⟩
  · intro stream fuel hw
    subst hw
    rw [cli_random_loop]
    simp [list_get_random, list_get_all, chooseElem]
  · intro stream fuel x h
    rcases cli_random_loop_result w fuel stream _ h with h1 | ⟨t, l, y, hl, hne, hy, hr⟩
    · exact absurd h1.1 (by simp)
    · simp at hr
      subst hr
      exact ⟨t, l, hl, hne, hy⟩
  · intro stream fuel e h
    rcases cli_random_loop_result w fuel stream _ h with h1 | ⟨t, l, y, hl, hne, hy, hr⟩
    · obtain ⟨h1a, h1b⟩ := h1
      simp at h1a
      exact ⟨h1a, h1b⟩
    · exact absurd hr (by simp)
  · rintro ⟨⟨t, l⟩, hmem, hne⟩ hnd
    have hl : wlookup w t = some l := mem_wlookup_of_nodup hmem hnd
    have ht : t ∈ w.map Prod.fst := List.mem_map.2 ⟨(t, l), hmem, rfl⟩
    obtain ⟨⟨j, hj⟩, hget⟩ := List.get_of_mem ht
    obtain ⟨x, hx⟩ := chooseElem_of_ne_nil l j hne
    refine ⟨fun _ => j, x, ?_, t, l, hl, hne, chooseElem_mem hx⟩
    rw [cli_random_loop]
    have hg : list_get_random w j = .ok t := by
      have hwne : w ≠ [] := by
        intro hw
        rw [hw] at hmem
        exact absurd hmem (List.not_mem_nil _)
      have hch : chooseElem (w.map Prod.fst) j = some t := by
        unfold chooseElem
        rw [Nat.mod_eq_of_lt hj, List.get?_eq_get hj, hget]
      simp [list_get_random, list_get_all, List.isEmpty_iff, List.map_eq_nil_iff,
        hwne, hch]
    simp [hg, hl, List.isEmpty_iff, hne, item_get_random, hx]

/-- Witness for C2: on the empty collection the loop reports `NoTitles`
at once. -/
theorem cli_random_none_spec_witness :
    cli_random_loop [] (fun _ => 0) 1 = some (.error .NoTitles) :=
  (cli_random_none_spec []).1 (fun _ => 0) 0 rfl

end Watchlist
